import Mathlib

/-!
Verification of the Rocket.Chat channel adapter's polling and
reconciliation engine (the final revision of `src/monitor.js`), of its
reaction marker (`src/reactions.js`) and of the host-runtime singleton
(`src/runtime.js`).

The JavaScript code is embedded shallowly: the polling loop becomes a
fold over explicit per-cycle environments, network effects become
`Except` values supplied by the environment, and every observable action
of the engine (reaction toggles, marker invocations, dispatch-bridge
invocations, log lines) is recorded in an event trace. Definitions are
translated from the source; `specWalk` and `specInboundHistory` are the
one exception, written from the specification's words to be compared
with the code's history budgeter.
-/

namespace RocketChat

/-- A snapshot of a Rocket.Chat message as the monitor reads it.
Field-by-field image of the JS object: `id` is `_id`; `senderId` and
`username` model `u?._id` / `u?.username` (`none` = `u` absent); `msg` is
the body (`msg.msg || ''` is the identity on a plain string field);
`ts` is the epoch-millisecond timestamp (`new Date(msg.ts).getTime()`);
`t` is the truthiness of the system-event marker `msg.t`; `bot` the
`msg.bot` flag; `reactions` the set of emoji keys present in
`msg.reactions`; `tmid` the optional parent-thread id; `tcount` the
reply count (`0` = absent, matching `undefined > 0 = false`). -/
structure Msg where
  id : String
  senderId : Option String
  username : Option String
  msg : String
  ts : Nat
  t : Bool
  bot : Bool
  reactions : List String
  tmid : Option String
  tcount : Nat
  deriving DecidableEq

/-- Reaction key the monitor checks for completed messages
(`msg.reactions?.[':white_check_mark:']`). -/
def checkmarkKey : String := ":white_check_mark:"

/-- Reaction key the monitor checks for previously failed messages
(`msg.reactions?.[':x:']`). -/
def xKey : String := ":x:"

/-- Observable actions of the engine, in program order. `react` is a raw
`reactToMessage(config, id, emoji, shouldApply)` call made directly by
the monitor (the stale-x removal); the three `mark*` events are the
reaction-marker invocations; `dispatch` is an invocation of
`dispatchReplyWithBufferedBlockDispatcher`; `logWarn` / `logError` are
`log.warn` / `log.error` lines. -/
inductive Event where
  | react (id emoji : String) (apply : Bool)
  | markProcessing (id : String)
  | markComplete (id : String)
  | markFailed (id : String)
  | dispatch (id : String)
  | logWarn
  | logError
  deriving DecidableEq

/-- The module-level `_runtime` singleton of `src/runtime.js`: `none`
until `setRuntime` has been called. The runtime handle itself carries no
data the engine inspects, so it is modelled as `Unit`. -/
abbrev RuntimeSlot := Option Unit

/-- Shallow embedding of `getRuntime()` from `src/runtime.js`: throws
when the singleton was never set. -/
def getRuntime (rt : RuntimeSlot) : Except String Unit :=
  match rt with
  | none => Except.error "Runtime not initialized — plugin must be registered first"
  | some r => Except.ok r

/-- Environment-chosen outcome of one `processMessage` attempt: the
state of the runtime singleton, whether `resolveAgentRoute` throws,
the final values of the `delivered` flag and the `deliveryError` slot
after the dispatch call, whether the dispatch call itself threw, and
whether the stale-x `reactToMessage` call throws. -/
structure Behavior where
  runtime : RuntimeSlot
  routeThrows : Bool
  delivered : Bool
  errorInvoked : Bool
  threw : Bool
  xRemoveThrows : Bool
  deriving DecidableEq

/-- The constant `MAX_PROCESSED_IDS` from `src/monitor.js`. -/
def MAX_PROCESSED_IDS : Nat := 500

/-- The cap step run after each insertion into `processedIds`: a JS
`Set` iterates in insertion order and the loop deletes the first
`excess` entries, i.e. drops the oldest-inserted prefix. -/
def capProcessed (pids : List String) : List String :=
  if pids.length > MAX_PROCESSED_IDS then pids.drop (pids.length - MAX_PROCESSED_IDS) else pids

/-- Result of one `processMessage` call: the JS return value (`false` =
filtered out, `true` = processed), the updated `processedIds` set
(insertion-ordered list), and the emitted events. -/
structure PMResult where
  processed : Bool
  pids : List String
  trace : List Event
  deriving DecidableEq

/-- Events of the dispatch section of `processMessage` (everything
inside the `try` after `markProcessing`, plus the `catch`): `getRuntime`
or `resolveAgentRoute` throwing lands in the catch without any dispatch;
otherwise the bridge is invoked, `onError` logs an error when it fires,
a throw of the dispatch call lands in the catch (markFailed + error
log), and otherwise the `delivered`/`deliveryError` flags choose
`markComplete`, or `markFailed` with a no-delivery warning when no error
was reported. -/
def dispatchEvents (id : String) (b : Behavior) : List Event :=
  match getRuntime b.runtime with
  | Except.error _ => [Event.markFailed id, Event.logError]
  | Except.ok _ =>
    if b.routeThrows then [Event.markFailed id, Event.logError]
    else
      Event.dispatch id ::
        ((if b.errorInvoked then [Event.logError] else []) ++
          (if b.threw then [Event.markFailed id, Event.logError]
           else if b.delivered && !b.errorInvoked then [Event.markComplete id]
           else Event.markFailed id :: (if !b.errorInvoked then [Event.logWarn] else [])))

/-- Shallow embedding of `processMessage` (final revision of
`src/monitor.js`): the five skip filters in source order, insertion into
the capped `processedIds` set, stale-x removal (with its own
try/catch), `markProcessing`, then the dispatch section. Attachment
download and the inbound-context construction only populate fields of
the `ctx` record handed to the bridge and are not separately observable
here. -/
def processMessage (botUserId : String) (m : Msg) (b : Behavior) (processedIds : List String) :
    PMResult :=
  if m.senderId == some botUserId then ⟨false, processedIds, []⟩
  else if m.t then ⟨false, processedIds, []⟩
  else if m.bot then ⟨false, processedIds, []⟩
  else if m.reactions.contains checkmarkKey then ⟨false, processedIds, []⟩
  else if processedIds.contains m.id then ⟨false, processedIds, []⟩
  else
    let pids' := capProcessed (processedIds ++ [m.id])
    let xTrace : List Event :=
      if m.reactions.contains xKey then
        Event.react m.id "x" false :: (if b.xRemoveThrows then [Event.logWarn] else [])
      else []
    ⟨true, pids', xTrace ++ Event.markProcessing m.id :: dispatchEvents m.id b⟩

/-- Sequential `processMessage` over a list of messages (the shape of
both the channel-batch loop body and the thread-reply loop body),
threading the `processedIds` set and concatenating traces. -/
def processSeq (botUserId : String) (msgs : List (Msg × Behavior)) (pids : List String) :
    List String × List Event :=
  match msgs with
  | [] => (pids, [])
  | (m, b) :: rest =>
    let r := processMessage botUserId m b pids
    let rec' := processSeq botUserId rest r.pids
    (rec'.1, r.trace ++ rec'.2)

/-- History-budgeter entry (`{ sender, body, timestamp }`). -/
structure InboundHistoryEntry where
  sender : String
  body : String
  timestamp : Nat
  deriving DecidableEq

/-- Image of `m.u?.username || 'unknown'` (JS `||` treats the empty
string as falsy). -/
def orUnknown (s : Option String) : String :=
  match s with
  | some u => if u == "" then "unknown" else u
  | none => "unknown"

/-- The ellipsis character appended by truncation (`'…'`). -/
def ellipsis : String := "…"

/-- The budget-consuming walk of `buildInboundHistory`: messages arrive
newest-first; the loop breaks when `remaining <= 0`, includes a body
that fits whole, and otherwise pushes the truncated body and sets
`remaining` to zero (so the next iteration breaks). -/
def budgetWalk : Nat → List Msg → List InboundHistoryEntry
  | _, [] => []
  | remaining, m :: rest =>
    if remaining ≤ 0 then []
    else if m.msg.length ≤ remaining then
      ⟨orUnknown m.username, m.msg, m.ts⟩ :: budgetWalk (remaining - m.msg.length) rest
    else
      ⟨orUnknown m.username, m.msg.take remaining ++ ellipsis, m.ts⟩ :: budgetWalk 0 rest

/-- Shallow embedding of `buildInboundHistory(threadHistory,
currentMsgId, budget)` from `src/monitor.js`: drop the current message,
reverse to newest-first, run the budget walk, reverse the accumulated
entries back to chronological order. -/
def buildInboundHistory (threadHistory : List Msg) (currentMsgId : String) (budget : Nat) :
    List InboundHistoryEntry :=
  let prior := (threadHistory.filter (fun m => m.id != currentMsgId)).reverse
  (budgetWalk budget prior).reverse

/-- Reference algorithm for the history budgeter, written from the
spec's words (§4.3): exclude the current message; order the rest
newest-first; greedily consume the budget — a message is included whole
when its body fits the remaining budget, else emitted truncated to the
remaining budget with one trailing ellipsis character with consumption
set to zero, which stops further inclusion (so the walk stops once the
remaining budget is zero); the result is returned in chronological
order. Built here chronologically by appending, to be compared with the
code's push-then-reverse shape. -/
def specWalk : Nat → List Msg → List InboundHistoryEntry
  | _, [] => []
  | remaining, m :: rest =>
    if remaining = 0 then []
    else if m.msg.length ≤ remaining then
      specWalk (remaining - m.msg.length) rest ++ [⟨orUnknown m.username, m.msg, m.ts⟩]
    else
      [⟨orUnknown m.username, m.msg.take remaining ++ ellipsis, m.ts⟩]

/-- Spec-side history budgeter (see `specWalk`). -/
def specInboundHistory (messages : List Msg) (currentId : String) (budget : Nat) :
    List InboundHistoryEntry :=
  specWalk budget ((messages.filter (fun m => m.id != currentId)).reverse)

/-- Per-thread poll state (`{ lastSeen, offset }` values of the
`activeThreads` map). -/
structure ThreadSt where
  lastSeen : Nat
  offset : Nat
  deriving DecidableEq

/-- Engine state owned by the polling loop: the capped `processedIds`
set and the `activeThreads` map, both as insertion-ordered lists (a JS
`Map` iterates in insertion order and updating an existing key keeps
its position). -/
structure EngineState where
  processedIds : List String
  activeThreads : List (String × ThreadSt)
  deriving DecidableEq

/-- Refresh `lastSeen` of an existing key of the `activeThreads` map,
keeping its position. -/
def updateLastSeen (now : Nat) (tid : String) :
    List (String × ThreadSt) → List (String × ThreadSt)
  | [] => []
  | (t, st) :: rest =>
    if t == tid then (t, { st with lastSeen := now }) :: rest
    else (t, st) :: updateLastSeen now tid rest

/-- Thread discovery run on every channel-history message before the
`processMessage` call: a thread root (`!msg.tmid && msg.tcount > 0`) is
added with `offset = 0` when new, else its `lastSeen` is refreshed. -/
def trackThread (now : Nat) (m : Msg) (threads : List (String × ThreadSt)) :
    List (String × ThreadSt) :=
  if m.tmid == none && m.tcount > 0 then
    if (threads.map Prod.fst).contains m.id then updateLastSeen now m.id threads
    else threads ++ [(m.id, ⟨now, 0⟩)]
  else threads

/-- Environment of one poll cycle: the channel-history fetch result
(the list is newest-first, as the API returns it; each message is
paired with the environment's behaviour for its dispatch attempt), the
outcome of the per-message thread-context fetch for channel messages
carrying `tmid`, the thread-reply fetch keyed by thread id and current
offset, the outcome of the per-thread context fetch, and the cycle's
`Date.now()` reading. -/
structure CycleEnv where
  channel : Except Unit (List (Msg × Behavior))
  ctxFetchOk : String → Bool
  threadFetch : String → Nat → Except Unit (List (Msg × Behavior))
  threadCtxOk : String → Bool
  now : Nat

/-- Channel-batch phase of one cycle: per message, thread tracking,
the `tmid` context fetch (its failure only logs an error and processing
continues), then `processMessage`. -/
def processChannel (botUserId : String) (ctxFetchOk : String → Bool) (now : Nat)
    (msgs : List (Msg × Behavior)) (s : EngineState) : EngineState × List Event :=
  match msgs with
  | [] => (s, [])
  | (m, b) :: rest =>
    let threads := trackThread now m s.activeThreads
    let ctxTrace : List Event :=
      match m.tmid with
      | some tid => if ctxFetchOk tid then [] else [Event.logError]
      | none => []
    let r := processMessage botUserId m b s.processedIds
    let rec' := processChannel botUserId ctxFetchOk now rest ⟨r.pids, threads⟩
    (rec'.1, ctxTrace ++ r.trace ++ rec'.2)

/-- Stale-thread pruning: drop entries with `now - lastSeen > ttl`. -/
def pruneThreads (now ttl : Nat) (threads : List (String × ThreadSt)) :
    List (String × ThreadSt) :=
  threads.filter (fun p => !(now - p.2.lastSeen > ttl))

/-- One tracked thread's poll: the reply fetch at the current offset
(failure: log, keep state); on new replies, the context fetch (failure
lands in the same per-thread catch: log, keep state), then the replies
run through `processMessage` and the offset and `lastSeen` advance. -/
def pollThread (botUserId : String) (env : CycleEnv) (pids : List String)
    (tid : String) (st : ThreadSt) : ThreadSt × List String × List Event :=
  match env.threadFetch tid st.offset with
  | Except.error _ => (st, pids, [Event.logError])
  | Except.ok replies =>
    if replies.length > 0 then
      if env.threadCtxOk tid then
        let r := processSeq botUserId replies pids
        (⟨env.now, st.offset + replies.length⟩, r.1, r.2)
      else (st, pids, [Event.logError])
    else (st, pids, [])

/-- Thread-polling phase: every tracked thread is polled in map order;
a failing thread only contributes its error log. -/
def pollThreads (botUserId : String) (env : CycleEnv)
    (threads : List (String × ThreadSt)) (pids : List String) :
    List (String × ThreadSt) × List String × List Event :=
  match threads with
  | [] => ([], pids, [])
  | (tid, st) :: rest =>
    let r := pollThread botUserId env pids tid st
    let rest' := pollThreads botUserId env rest r.2.1
    ((tid, r.1) :: rest'.1, rest'.2.1, r.2.2 ++ rest'.2.2)

/-- One iteration of the `while` loop (`RUNNING` state): the whole body
sits in one `try`, so a channel-history fetch failure logs a poll error
and skips the entire cycle (message processing, pruning and thread
polls) with the state unchanged; otherwise the batch is processed
oldest-first, stale threads are pruned, and active threads are
polled. -/
def runCycle (botUserId : String) (ttl : Nat) (env : CycleEnv) (s : EngineState) :
    EngineState × List Event :=
  match env.channel with
  | Except.error _ => (s, [Event.logError])
  | Except.ok msgs =>
    let c := processChannel botUserId env.ctxFetchOk env.now msgs.reverse s
    let pruned := pruneThreads env.now ttl c.1.activeThreads
    let t := pollThreads botUserId env pruned c.1.processedIds
    (⟨t.2.1, t.1⟩, c.2 ++ t.2.2)

/-- The polling loop run over a finite schedule of cycle environments
(the schedule's end models the cancellation signal; the loop has no
other exit). Returns the final engine state and one trace per cycle. -/
def runCycles (botUserId : String) (ttl : Nat) (envs : List CycleEnv) (s : EngineState) :
    EngineState × List (List Event) :=
  match envs with
  | [] => (s, [])
  | env :: rest =>
    let c := runCycle botUserId ttl env s
    let r := runCycles botUserId ttl rest c.1
    (r.1, c.2 :: r.2)

/-- One `reactToMessage` call of the reaction marker
(`src/reactions.js`): the call record and the environment-chosen
outcome of the underlying HTTP request. -/
structure RCall where
  messageId : String
  emoji : String
  shouldApply : Bool
  deriving DecidableEq

/-- Result of a marker operation: the `reactToMessage` calls issued, in
order, and the number of warning log lines. -/
structure MarkResult where
  calls : List RCall
  warns : Nat
  deriving DecidableEq

/-- One `try { await reactToMessage(...) } catch (err) { log.warn(...) }`
block: the call is issued, a failing outcome is converted into a
warning log, and no error escapes. -/
def attemptReact (c : RCall) (outcome : Except String Unit) :
    Except String (List RCall × Nat) :=
  match outcome with
  | Except.ok _ => Except.ok ([c], 0)
  | Except.error _ => Except.ok ([c], 1)

/-- Shallow embedding of `markProcessing`: one wrapped call applying the
hourglass. -/
def markProcessing (messageId : String) (r1 : Except String Unit) :
    Except String MarkResult := do
  let a ← attemptReact ⟨messageId, "hourglass", true⟩ r1
  return ⟨a.1, a.2⟩

/-- Shallow embedding of `markComplete`: remove hourglass, then apply
checkmark, each step independently wrapped. `r1`, `r2` are the
environment-chosen outcomes of the two underlying calls. -/
def markComplete (messageId : String) (r1 r2 : Except String Unit) :
    Except String MarkResult := do
  let a ← attemptReact ⟨messageId, "hourglass", false⟩ r1
  let b ← attemptReact ⟨messageId, "white_check_mark", true⟩ r2
  return ⟨a.1 ++ b.1, a.2 + b.2⟩

/-- Shallow embedding of `markFailed`: remove hourglass, then apply x,
each step independently wrapped. -/
def markFailed (messageId : String) (r1 r2 : Except String Unit) :
    Except String MarkResult := do
  let a ← attemptReact ⟨messageId, "hourglass", false⟩ r1
  let b ← attemptReact ⟨messageId, "x", true⟩ r2
  return ⟨a.1 ++ b.1, a.2 + b.2⟩

/-- Count of dispatch-bridge invocations for a given message id in a
trace. -/
def isDispatchOf (mid : String) : Event → Bool
  | Event.dispatch i => i == mid
  | _ => false

/-- Count of dispatch-bridge invocations for `mid` in `tr`. -/
def dispatchCountId (mid : String) (tr : List Event) : Nat :=
  tr.countP (isDispatchOf mid)

/-- The four reaction-independent exclusion filters of `processMessage`
in source order: self-authored, system event, bot-authored, already
bearing the checkmark. (The fifth filter, `processedIds` membership,
depends on the run state and is kept separate.) -/
def excludedMsg (botUserId : String) (m : Msg) : Bool :=
  m.senderId == some botUserId || m.t || m.bot || m.reactions.contains checkmarkKey

/-- Hypothesis of the exclusion claim: in every cycle of the run, every
message the environment can hand to the engine (channel history or
thread replies) that bears the identifier `mid` is caught by one of the
four exclusion filters. -/
def excludedEverywhere (bot mid : String) (envs : List CycleEnv) : Prop :=
  ∀ env ∈ envs,
    (∀ l, env.channel = Except.ok l → ∀ p ∈ l, p.1.id = mid → excludedMsg bot p.1 = true) ∧
    (∀ tid off l, env.threadFetch tid off = Except.ok l →
      ∀ p ∈ l, p.1.id = mid → excludedMsg bot p.1 = true)

/-- Recognizer for any dispatch-bridge invocation. -/
def isDispatch : Event → Bool
  | Event.dispatch _ => true
  | _ => false

/-- Number of dispatch-bridge invocations in a trace. -/
def dispatchCount (tr : List Event) : Nat := tr.countP isDispatch

def c7long : Msg :=
  ⟨"m1", some "alice-id", some "alice", String.mk (List.replicate 100 'x'), 1,
    false, false, [], none, 0⟩

def c7short : Msg :=
  ⟨"m2", some "bob-id", some "bob", "short", 2, false, false, [], none, 0⟩

def c7current : Msg :=
  ⟨"m3", some "alice-id", some "alice", "current", 3, false, false, [], none, 0⟩

/-- Number of warning logs a call outcome produces. -/
def warnOf (r : Except String Unit) : Nat :=
  match r with
  | Except.ok _ => 0
  | Except.error _ => 1

def c4msg : Msg := ⟨"m1", some "alice", some "alice", "hi", 0, false, false, [], none, 0⟩

def c4msgX : Msg := ⟨"m1", some "alice", some "alice", "hi", 0, false, false, [":x:"], none, 0⟩

def c4bFail : Behavior := ⟨some (), false, false, false, true, false⟩

def c4bOk : Behavior := ⟨some (), false, true, false, false, false⟩

def c4env1 : CycleEnv :=
  ⟨Except.ok [(c4msg, c4bFail)], fun _ => true, fun _ _ => Except.ok [], fun _ => true, 0⟩

def c4env2 : CycleEnv :=
  ⟨Except.ok [(c4msgX, c4bOk)], fun _ => true, fun _ _ => Except.ok [], fun _ => true, 1⟩

def w1msg : Msg := ⟨"m1", some "eve", some "eve", "hey", 0, false, true, [], none, 0⟩

def w1beh : Behavior := ⟨some (), false, true, false, false, false⟩

def w1env : CycleEnv :=
  ⟨Except.ok [(w1msg, w1beh)], fun _ => true, fun _ _ => Except.ok [], fun _ => true, 0⟩

def w2msg : Msg := ⟨"m1", some "alice", some "alice", "hello", 0, false, false, [], none, 0⟩

def w2beh : Behavior := ⟨some (), false, true, false, false, false⟩

def w3m1 : Msg := ⟨"m1", some "alice", some "alice", "one", 0, false, false, [], none, 0⟩

def w3m2 : Msg := ⟨"m2", some "bob", some "bob", "two", 1, false, false, [], none, 0⟩

def w4m : Msg := ⟨"m1", some "alice", some "alice", "hi", 0, false, false, [], none, 0⟩

def w4mX : Msg := ⟨"m1", some "alice", some "alice", "hi", 0, false, false, [":x:"], none, 0⟩

def w4bF : Behavior := ⟨some (), false, false, false, true, false⟩

def w9env : CycleEnv :=
  ⟨Except.error (), fun _ => true, fun _ _ => Except.error (), fun _ => true, 0⟩

def w10beh : Behavior := ⟨none, false, false, false, false, false⟩

theorem pm_excluded (bot : String) (m : Msg) (b : Behavior) (pids : List String)
    (h : excludedMsg bot m = true) :
    processMessage bot m b pids = ⟨false, pids, []⟩ := by
  unfold processMessage
  repeat' split
  all_goals first | rfl | (exfalso; simp_all [excludedMsg])

theorem pm_seen (bot : String) (m : Msg) (b : Behavior) (pids : List String)
    (h : pids.contains m.id = true) :
    processMessage bot m b pids = ⟨false, pids, []⟩ := by
  unfold processMessage
  repeat' split
  all_goals first | rfl | (exfalso; simp_all)

theorem pm_eligible (bot : String) (m : Msg) (b : Behavior) (pids : List String)
    (h1 : excludedMsg bot m = false) (h2 : pids.contains m.id = false) :
    processMessage bot m b pids =
      ⟨true, capProcessed (pids ++ [m.id]),
        (if m.reactions.contains xKey then
          Event.react m.id "x" false :: (if b.xRemoveThrows then [Event.logWarn] else [])
         else []) ++ Event.markProcessing m.id :: dispatchEvents m.id b⟩ := by
  simp only [excludedMsg, Bool.or_eq_false_iff] at h1
  unfold processMessage
  simp_all

theorem dispatchEvents_dispatch_mem (i x : String) (b : Behavior)
    (h : Event.dispatch x ∈ dispatchEvents i b) : x = i := by
  unfold dispatchEvents at h
  rcases hb : getRuntime b.runtime with e | u <;> rw [hb] at h <;>
    repeat' split at h <;> simp_all

theorem dispatchEvents_count_self (i : String) (b : Behavior)
    (hr : b.runtime = some ()) (hro : b.routeThrows = false) :
    dispatchCountId i (dispatchEvents i b) = 1 := by
  simp only [dispatchEvents, hr, hro, getRuntime, dispatchCountId]
  repeat' split <;> simp_all [isDispatchOf]

theorem dispatchEvents_count_ne (i mid : String) (b : Behavior) (h : i ≠ mid) :
    dispatchCountId mid (dispatchEvents i b) = 0 := by
  simp only [dispatchCountId, List.countP_eq_zero]
  intro e he
  cases e with
  | dispatch j =>
    have hj : j = i := dispatchEvents_dispatch_mem i j b he
    subst hj
    simp only [isDispatchOf, beq_iff_eq]
    simpa using h
  | react id emoji apply => simp [isDispatchOf]
  | markProcessing id => simp [isDispatchOf]
  | markComplete id => simp [isDispatchOf]
  | markFailed id => simp [isDispatchOf]
  | logWarn => simp [isDispatchOf]
  | logError => simp [isDispatchOf]

theorem pm_dispatch_imp (bot x : String) (m : Msg) (b : Behavior) (pids : List String)
    (h : Event.dispatch x ∈ (processMessage bot m b pids).trace) :
    x = m.id ∧ excludedMsg bot m = false ∧ pids.contains m.id = false := by
  by_cases he : excludedMsg bot m = true
  · rw [pm_excluded _ _ _ _ he] at h; simp at h
  · by_cases hs : pids.contains m.id = true
    · rw [pm_seen _ _ _ _ hs] at h; simp at h
    · rw [pm_eligible _ _ _ _ (by simpa using he) (by simpa using hs)] at h
      simp only [List.mem_append, List.mem_cons] at h
      refine ⟨?_, by simpa using he, by simpa using hs⟩
      rcases h with hx | hmp | hd
      · split at hx <;> simp_all
      · simp at hmp
      · exact dispatchEvents_dispatch_mem m.id x b hd

theorem pm_count_ne (bot mid : String) (m : Msg) (b : Behavior) (pids : List String)
    (h : m.id ≠ mid) : dispatchCountId mid (processMessage bot m b pids).trace = 0 := by
  simp only [dispatchCountId, List.countP_eq_zero]
  intro e he
  cases e with
  | dispatch j =>
    have := (pm_dispatch_imp bot j m b pids he).1
    subst this
    simp only [isDispatchOf, beq_iff_eq]
    simpa using h
  | react id emoji apply => simp [isDispatchOf]
  | markProcessing id => simp [isDispatchOf]
  | markComplete id => simp [isDispatchOf]
  | markFailed id => simp [isDispatchOf]
  | logWarn => simp [isDispatchOf]
  | logError => simp [isDispatchOf]

theorem pm_count_self (bot : String) (m : Msg) (b : Behavior) (pids : List String)
    (h1 : excludedMsg bot m = false) (h2 : pids.contains m.id = false)
    (hr : b.runtime = some ()) (hro : b.routeThrows = false) :
    dispatchCountId m.id (processMessage bot m b pids).trace = 1 := by
  rw [pm_eligible _ _ _ _ h1 h2]
  have hd := dispatchEvents_count_self m.id b hr hro
  cases hx : m.reactions.contains xKey <;> cases hw : b.xRemoveThrows <;>
    simpa [dispatchCountId, isDispatchOf, List.countP_append, List.countP_cons] using hd

theorem capProcessed_length (l : List String) :
    (capProcessed l).length = min l.length MAX_PROCESSED_IDS := by
  unfold capProcessed
  split <;> simp <;> omega

theorem capProcessed_subset (l : List String) (x : String) (h : x ∈ capProcessed l) : x ∈ l := by
  unfold capProcessed at h
  split at h
  · exact List.mem_of_mem_drop h
  · exact h

theorem pm_pids_cases (bot : String) (m : Msg) (b : Behavior) (pids : List String) :
    (processMessage bot m b pids).pids = pids ∨
      (processMessage bot m b pids).pids = capProcessed (pids ++ [m.id]) := by
  unfold processMessage
  repeat' split
  all_goals first | exact Or.inl rfl | exact Or.inr rfl

theorem pm_pids_subset (bot : String) (m : Msg) (b : Behavior) (pids : List String)
    (x : String) (h : x ∈ (processMessage bot m b pids).pids) : x ∈ pids ∨ x = m.id := by
  rcases pm_pids_cases bot m b pids with hc | hc <;> rw [hc] at h
  · exact Or.inl h
  · have := capProcessed_subset _ _ h
    simpa using this

theorem pm_pids_length (bot : String) (m : Msg) (b : Behavior) (pids : List String)
    (h : pids.length ≤ MAX_PROCESSED_IDS) :
    (processMessage bot m b pids).pids.length ≤ MAX_PROCESSED_IDS := by
  rcases pm_pids_cases bot m b pids with hc | hc <;> rw [hc]
  · exact h
  · rw [capProcessed_length]; omega

theorem isDispatchOf_eq_true_iff (mid : String) (e : Event) :
    isDispatchOf mid e = true ↔ e = Event.dispatch mid := by
  cases e <;> simp [isDispatchOf] <;> exact fun h => h ▸ rfl

theorem dispatchCount_zero_iff (mid : String) (tr : List Event) :
    dispatchCountId mid tr = 0 ↔ Event.dispatch mid ∉ tr := by
  simp only [dispatchCountId, List.countP_eq_zero, isDispatchOf_eq_true_iff]
  constructor
  · intro h hmem
    exact h _ hmem rfl
  · intro h e he hc
    exact h (hc ▸ he)

theorem processSeq_append (bot : String) (xs ys : List (Msg × Behavior)) (pids : List String) :
    processSeq bot (xs ++ ys) pids =
      ((processSeq bot ys (processSeq bot xs pids).1).1,
       (processSeq bot xs pids).2 ++ (processSeq bot ys (processSeq bot xs pids).1).2) := by
  induction xs generalizing pids with
  | nil => simp [processSeq]
  | cons p rest ih =>
    obtain ⟨m, b⟩ := p
    simp [processSeq, ih, List.append_assoc]

theorem processSeq_pids_subset (bot : String) (msgs : List (Msg × Behavior))
    (pids : List String) (x : String) (h : x ∈ (processSeq bot msgs pids).1) :
    x ∈ pids ∨ ∃ p ∈ msgs, p.1.id = x := by
  induction msgs generalizing pids with
  | nil => exact Or.inl (by simpa [processSeq] using h)
  | cons p rest ih =>
    obtain ⟨m, b⟩ := p
    simp only [processSeq] at h
    rcases ih (processMessage bot m b pids).pids h with hin | ⟨q, hq, hqid⟩
    · rcases pm_pids_subset bot m b pids x hin with hx | hx
      · exact Or.inl hx
      · exact Or.inr ⟨(m, b), by simp, hx.symm⟩
    · exact Or.inr ⟨q, by simp [hq], hqid⟩

theorem processSeq_not_mem (bot mid : String) (msgs : List (Msg × Behavior))
    (pids : List String) (h : mid ∉ pids) (hm : ∀ p ∈ msgs, p.1.id ≠ mid) :
    mid ∉ (processSeq bot msgs pids).1 := by
  intro hc
  rcases processSeq_pids_subset bot msgs pids mid hc with hin | ⟨q, hq, hqid⟩
  · exact h hin
  · exact hm q hq hqid

theorem processSeq_length (bot : String) (msgs : List (Msg × Behavior)) (pids : List String)
    (h : pids.length ≤ MAX_PROCESSED_IDS) :
    (processSeq bot msgs pids).1.length ≤ MAX_PROCESSED_IDS := by
  induction msgs generalizing pids with
  | nil => simpa [processSeq] using h
  | cons p rest ih =>
    obtain ⟨m, b⟩ := p
    simp only [processSeq]
    exact ih _ (pm_pids_length bot m b pids h)

theorem processSeq_no_dispatch (bot mid : String) (msgs : List (Msg × Behavior))
    (pids : List String)
    (hm : ∀ p ∈ msgs, p.1.id = mid → excludedMsg bot p.1 = true) :
    dispatchCountId mid (processSeq bot msgs pids).2 = 0 := by
  induction msgs generalizing pids with
  | nil => simp [processSeq, dispatchCountId]
  | cons p rest ih =>
    obtain ⟨m, b⟩ := p
    simp only [processSeq, dispatchCountId, List.countP_append]
    have h1 : dispatchCountId mid (processMessage bot m b pids).trace = 0 := by
      by_cases hid : m.id = mid
      · rw [pm_excluded bot m b pids (hm (m, b) (by simp) hid)]
        simp [dispatchCountId]
      · exact pm_count_ne bot mid m b pids hid
    have h2 := ih (processMessage bot m b pids).pids (fun p hp => hm p (by simp [hp]))
    simp only [dispatchCountId] at h1 h2
    omega

theorem processSeq_count_ne (bot mid : String) (msgs : List (Msg × Behavior))
    (pids : List String) (hm : ∀ p ∈ msgs, p.1.id ≠ mid) :
    dispatchCountId mid (processSeq bot msgs pids).2 = 0 := by
  induction msgs generalizing pids with
  | nil => simp [processSeq, dispatchCountId]
  | cons p rest ih =>
    obtain ⟨m, b⟩ := p
    simp only [processSeq, dispatchCountId, List.countP_append]
    have h1 := pm_count_ne bot mid m b pids (hm (m, b) (by simp))
    have h2 := ih (processMessage bot m b pids).pids (fun p hp => hm p (by simp [hp]))
    simp only [dispatchCountId] at h1 h2
    omega

theorem processChannel_pids (bot : String) (ctxOk : String → Bool) (now : Nat)
    (msgs : List (Msg × Behavior)) (s : EngineState) :
    (processChannel bot ctxOk now msgs s).1.processedIds =
      (processSeq bot msgs s.processedIds).1 := by
  induction msgs generalizing s with
  | nil => simp [processChannel, processSeq]
  | cons p rest ih =>
    obtain ⟨m, b⟩ := p
    simp only [processChannel, processSeq]
    exact ih _

theorem processChannel_no_dispatch (bot mid : String) (ctxOk : String → Bool) (now : Nat)
    (msgs : List (Msg × Behavior)) (s : EngineState)
    (hm : ∀ p ∈ msgs, p.1.id = mid → excludedMsg bot p.1 = true) :
    dispatchCountId mid (processChannel bot ctxOk now msgs s).2 = 0 := by
  induction msgs generalizing s with
  | nil => simp [processChannel, dispatchCountId]
  | cons p rest ih =>
    obtain ⟨m, b⟩ := p
    simp only [processChannel, dispatchCountId, List.countP_append]
    have h1 : dispatchCountId mid (processMessage bot m b s.processedIds).trace = 0 := by
      by_cases hid : m.id = mid
      · rw [pm_excluded bot m b _ (hm (m, b) (by simp) hid)]
        simp [dispatchCountId]
      · exact pm_count_ne bot mid m b _ hid
    have h2 := ih ⟨(processMessage bot m b s.processedIds).pids,
      trackThread now m s.activeThreads⟩ (fun p hp => hm p (by simp [hp]))
    have h0 : (match m.tmid with
        | some tid => if ctxOk tid then [] else [Event.logError]
        | none => ([] : List Event)).countP (isDispatchOf mid) = 0 := by
      rcases m.tmid with _ | tid
      · simp
      · split <;> simp [isDispatchOf]
    simp only [dispatchCountId] at h1 h2
    omega

theorem pollThread_no_dispatch (bot mid : String) (env : CycleEnv) (pids : List String)
    (tid : String) (st : ThreadSt)
    (hm : ∀ l, env.threadFetch tid st.offset = Except.ok l →
      ∀ p ∈ l, p.1.id = mid → excludedMsg bot p.1 = true) :
    dispatchCountId mid (pollThread bot env pids tid st).2.2 = 0 := by
  unfold pollThread
  rcases hf : env.threadFetch tid st.offset with e | replies
  · simp [dispatchCountId, isDispatchOf]
  · simp only []
    split
    · split
      · exact processSeq_no_dispatch bot mid replies pids (hm replies hf)
      · simp [dispatchCountId, isDispatchOf]
    · simp [dispatchCountId]

theorem pollThreads_no_dispatch (bot mid : String) (env : CycleEnv)
    (threads : List (String × ThreadSt)) (pids : List String)
    (hm : ∀ tid off l, env.threadFetch tid off = Except.ok l →
      ∀ p ∈ l, p.1.id = mid → excludedMsg bot p.1 = true) :
    dispatchCountId mid (pollThreads bot env threads pids).2.2 = 0 := by
  induction threads generalizing pids with
  | nil => simp [pollThreads, dispatchCountId]
  | cons p rest ih =>
    obtain ⟨tid, st⟩ := p
    simp only [pollThreads, dispatchCountId, List.countP_append]
    have h1 := pollThread_no_dispatch bot mid env pids tid st (fun l hl => hm tid st.offset l hl)
    have h2 := ih (pollThread bot env pids tid st).2.1
    simp only [dispatchCountId] at h1 h2
    omega

theorem pollThread_length (bot : String) (env : CycleEnv) (pids : List String)
    (tid : String) (st : ThreadSt) (h : pids.length ≤ MAX_PROCESSED_IDS) :
    (pollThread bot env pids tid st).2.1.length ≤ MAX_PROCESSED_IDS := by
  unfold pollThread
  rcases env.threadFetch tid st.offset with e | replies
  · simpa using h
  · simp only []
    split
    · split
      · exact processSeq_length bot replies pids h
      · simpa using h
    · simpa using h

theorem pollThreads_length (bot : String) (env : CycleEnv)
    (threads : List (String × ThreadSt)) (pids : List String)
    (h : pids.length ≤ MAX_PROCESSED_IDS) :
    (pollThreads bot env threads pids).2.1.length ≤ MAX_PROCESSED_IDS := by
  induction threads generalizing pids with
  | nil => simpa [pollThreads] using h
  | cons p rest ih =>
    obtain ⟨tid, st⟩ := p
    simp only [pollThreads]
    exact ih _ (pollThread_length bot env pids tid st h)

theorem runCycle_no_dispatch (bot mid : String) (ttl : Nat) (env : CycleEnv) (s : EngineState)
    (hc : ∀ l, env.channel = Except.ok l → ∀ p ∈ l, p.1.id = mid → excludedMsg bot p.1 = true)
    (ht : ∀ tid off l, env.threadFetch tid off = Except.ok l →
      ∀ p ∈ l, p.1.id = mid → excludedMsg bot p.1 = true) :
    dispatchCountId mid (runCycle bot ttl env s).2 = 0 := by
  unfold runCycle
  rcases hch : env.channel with e | msgs
  · simp [dispatchCountId, isDispatchOf]
  · simp only [dispatchCountId, List.countP_append]
    have h1 := processChannel_no_dispatch bot mid env.ctxFetchOk env.now msgs.reverse s
      (fun p hp => hc msgs hch p (List.mem_reverse.mp hp))
    have h2 := pollThreads_no_dispatch bot mid env
      (pruneThreads env.now ttl
        (processChannel bot env.ctxFetchOk env.now msgs.reverse s).1.activeThreads)
      (processChannel bot env.ctxFetchOk env.now msgs.reverse s).1.processedIds ht
    simp only [dispatchCountId] at h1 h2
    omega

theorem runCycles_no_dispatch (bot mid : String) (ttl : Nat) (envs : List CycleEnv)
    (s : EngineState) (h : excludedEverywhere bot mid envs) :
    ∀ tr ∈ (runCycles bot ttl envs s).2, Event.dispatch mid ∉ tr := by
  induction envs generalizing s with
  | nil => simp [runCycles]
  | cons env rest ih =>
    intro tr htr
    simp only [runCycles, List.mem_cons] at htr
    rcases htr with htr | htr
    · subst htr
      have := runCycle_no_dispatch bot mid ttl env s (h env (by simp)).1 (h env (by simp)).2
      exact (dispatchCount_zero_iff mid _).mp this
    · exact ih _ (fun e he => h e (by simp [he])) tr htr

theorem runCycle_length (bot : String) (ttl : Nat) (env : CycleEnv) (s : EngineState)
    (h : s.processedIds.length ≤ MAX_PROCESSED_IDS) :
    (runCycle bot ttl env s).1.processedIds.length ≤ MAX_PROCESSED_IDS := by
  unfold runCycle
  rcases env.channel with e | msgs
  · simpa using h
  · simp only []
    apply pollThreads_length
    rw [processChannel_pids]
    exact processSeq_length bot msgs.reverse s.processedIds h

theorem runCycles_length (bot : String) (ttl : Nat) (envs : List CycleEnv) (s : EngineState)
    (h : s.processedIds.length ≤ MAX_PROCESSED_IDS) :
    (runCycles bot ttl envs s).1.processedIds.length ≤ MAX_PROCESSED_IDS := by
  induction envs generalizing s with
  | nil => simpa [runCycles] using h
  | cons env rest ih =>
    simp only [runCycles]
    exact ih _ (runCycle_length bot ttl env s h)

theorem runCycles_cycle_count (bot : String) (ttl : Nat) (envs : List CycleEnv)
    (s : EngineState) : (runCycles bot ttl envs s).2.length = envs.length := by
  induction envs generalizing s with
  | nil => simp [runCycles]
  | cons env rest ih => simp [runCycles, ih]

theorem capProcessed_eq_drop (l : List String) :
    capProcessed l = l.drop (l.length - MAX_PROCESSED_IDS) := by
  unfold capProcessed
  split
  · rfl
  · have h0 : l.length - MAX_PROCESSED_IDS = 0 := by omega
    simp [h0]

theorem capProcessed_take_append (l : List String) :
    l.take (l.length - MAX_PROCESSED_IDS) ++ capProcessed l = l := by
  rw [capProcessed_eq_drop]
  exact List.take_append_drop _ l

theorem dispatchEvents_total_count (i : String) (b : Behavior)
    (hr : b.runtime = some ()) (hro : b.routeThrows = false) :
    dispatchCount (dispatchEvents i b) = 1 := by
  simp only [dispatchEvents, hr, hro, getRuntime, dispatchCount]
  repeat' split <;> simp_all [isDispatch]

theorem pm_total_count (bot : String) (m : Msg) (b : Behavior) (pids : List String)
    (h1 : excludedMsg bot m = false) (h2 : pids.contains m.id = false)
    (hr : b.runtime = some ()) (hro : b.routeThrows = false) :
    dispatchCount (processMessage bot m b pids).trace = 1 := by
  rw [pm_eligible _ _ _ _ h1 h2]
  have hd := dispatchEvents_total_count m.id b hr hro
  cases hx : m.reactions.contains xKey <;> cases hw : b.xRemoveThrows <;>
    simpa [dispatchCount, isDispatch, List.countP_append, List.countP_cons] using hd

theorem processSeq_batch (bot : String) (msgs : List (Msg × Behavior)) (pids : List String)
    (hdist : (msgs.map (fun p => p.1.id)).Nodup)
    (hfresh : ∀ p ∈ msgs, p.1.id ∉ pids)
    (helig : ∀ p ∈ msgs, excludedMsg bot p.1 = false)
    (hrt : ∀ p ∈ msgs, p.2.runtime = some () ∧ p.2.routeThrows = false)
    (hlen : pids.length ≤ MAX_PROCESSED_IDS) :
    dispatchCount (processSeq bot msgs pids).2 = msgs.length ∧
      (processSeq bot msgs pids).1.length = min (pids.length + msgs.length) MAX_PROCESSED_IDS := by
  induction msgs generalizing pids with
  | nil =>
    refine ⟨by simp [processSeq, dispatchCount], ?_⟩
    simp only [processSeq, List.length_nil]
    omega
  | cons p rest ih =>
    obtain ⟨m, b⟩ := p
    have hmfresh : pids.contains m.id = false := by
      have := hfresh (m, b) (by simp)
      simpa using this
    have hpm := pm_eligible bot m b pids (helig (m, b) (by simp)) hmfresh
    have hcount := pm_total_count bot m b pids (helig (m, b) (by simp)) hmfresh
      (hrt (m, b) (by simp)).1 (hrt (m, b) (by simp)).2
    have hpids : (processMessage bot m b pids).pids = capProcessed (pids ++ [m.id]) := by
      rw [hpm]
    have hlen' : (processMessage bot m b pids).pids.length =
        min (pids.length + 1) MAX_PROCESSED_IDS := by
      rw [hpids, capProcessed_length]
      simp
    have hfresh' : ∀ q ∈ rest, q.1.id ∉ (processMessage bot m b pids).pids := by
      intro q hq hmem
      rcases pm_pids_subset bot m b pids q.1.id hmem with hin | hid
      · exact hfresh q (by simp [hq]) hin
      · have hne : m.id ≠ q.1.id := by
          simp only [List.map_cons, List.nodup_cons] at hdist
          exact fun he => hdist.1 (he ▸ List.mem_map_of_mem _ hq)
        exact hne hid.symm
    have ihr := ih ((processMessage bot m b pids).pids)
      (by simp only [List.map_cons, List.nodup_cons] at hdist; exact hdist.2)
      hfresh' (fun q hq => helig q (by simp [hq])) (fun q hq => hrt q (by simp [hq]))
      (by rw [hlen']; omega)
    constructor
    · simp only [processSeq, dispatchCount, List.countP_append, List.length_cons]
      have := ihr.1
      simp only [dispatchCount] at hcount this
      omega
    · simp only [processSeq, List.length_cons]
      rw [ihr.2, hlen']
      omega

theorem capProcessed_append_singleton (l : List String) (x : String)
    (h : l.length ≤ MAX_PROCESSED_IDS) :
    ∃ pre, capProcessed (l ++ [x]) = pre ++ [x] := by
  have h5 : l.length ≤ 500 := h
  rw [capProcessed_eq_drop]
  have hlen2 : (l ++ [x]).length = l.length + 1 := by simp
  rw [hlen2]
  have hle : l.length + 1 - MAX_PROCESSED_IDS ≤ l.length := by
    have : l.length + 1 - 500 ≤ l.length := by omega
    exact this
  refine ⟨l.drop (l.length + 1 - MAX_PROCESSED_IDS), ?_⟩
  rw [List.drop_append_eq_append_drop]
  have h0 : l.length + 1 - MAX_PROCESSED_IDS - l.length = 0 := by
    have : l.length + 1 - 500 - l.length = 0 := by omega
    exact this
  rw [h0, List.drop_zero]

theorem capProcessed_mid_insert (pre post : List String) (mid x : String)
    (hlen : (pre ++ mid :: post).length ≤ MAX_PROCESSED_IDS)
    (hpost : post.length + 1 < MAX_PROCESSED_IDS) :
    ∃ pre', capProcessed ((pre ++ mid :: post) ++ [x]) = pre' ++ mid :: (post ++ [x]) := by
  have hlen5 : pre.length + post.length + 1 ≤ 500 := by
    have h5 : (pre ++ mid :: post).length ≤ 500 := hlen
    simp only [List.length_append, List.length_cons] at h5
    omega
  have hpost5 : post.length + 1 < 500 := hpost
  have hsplit : (pre ++ mid :: post) ++ [x] = pre ++ (mid :: (post ++ [x])) := by simp
  rw [capProcessed_eq_drop, hsplit, List.drop_append_eq_append_drop]
  have hlen2 : (pre ++ mid :: (post ++ [x])).length = pre.length + post.length + 2 := by
    simp
    omega
  rw [hlen2]
  have h0 : pre.length + post.length + 2 - MAX_PROCESSED_IDS - pre.length = 0 := by
    have : pre.length + post.length + 2 - 500 - pre.length = 0 := by omega
    exact this
  rw [h0, List.drop_zero]
  exact ⟨pre.drop (pre.length + post.length + 2 - MAX_PROCESSED_IDS), rfl⟩

theorem processSeq_survival (bot mid : String) (msgs : List (Msg × Behavior))
    (pre post : List String)
    (hlen : (pre ++ mid :: post).length ≤ MAX_PROCESSED_IDS)
    (hcnt : post.length + msgs.length < MAX_PROCESSED_IDS) :
    ∃ pre' post', (processSeq bot msgs (pre ++ mid :: post)).1 = pre' ++ mid :: post' ∧
      post'.length ≤ post.length + msgs.length ∧
      (pre' ++ mid :: post').length ≤ MAX_PROCESSED_IDS := by
  induction msgs generalizing pre post with
  | nil => exact ⟨pre, post, by simp [processSeq], by omega, hlen⟩
  | cons p rest ih =>
    obtain ⟨m, b⟩ := p
    simp only [processSeq]
    rcases pm_pids_cases bot m b (pre ++ mid :: post) with hc | hc
    · rw [hc]
      obtain ⟨pre', post', heq, hle, hl⟩ := ih pre post hlen
        (by simp only [List.length_cons] at hcnt; omega)
      exact ⟨pre', post', heq, by simp only [List.length_cons] at hcnt ⊢; omega, hl⟩
    · obtain ⟨pre2, hcap⟩ := capProcessed_mid_insert pre post mid m.id hlen
        (by simp only [List.length_cons] at hcnt; omega)
      rw [hc, hcap]
      have hlen2 : (pre2 ++ mid :: (post ++ [m.id])).length ≤ MAX_PROCESSED_IDS := by
        rw [← hcap, capProcessed_length]
        omega
      obtain ⟨pre', post', heq, hle, hl⟩ := ih pre2 (post ++ [m.id]) hlen2
        (by simp only [List.length_append, List.length_singleton, List.length_cons, List.length_nil] at hcnt ⊢; omega)
      refine ⟨pre', post', heq, ?_, hl⟩
      simp only [List.length_append, List.length_singleton, List.length_cons,
        List.length_nil] at hle hcnt ⊢
      omega

/-- Claim C6: dispatch is idempotent under re-delivery: when the same message
is returned by two consecutive polls of one run, with fewer than 500 other
messages handled between its two occurrences, the dispatch bridge is
invoked exactly once in total for it - the first processing records the
identifier in ProcessedSet and the presence check excludes the second
occurrence. -/
theorem claim_C6_dispatch_idempotent_across_polls (bot : String) (m : Msg) (b1 b2 : Behavior)
    (a1 c1 a2 c2 : List (Msg × Behavior)) (pids : List String)
    (hlen : pids.length ≤ MAX_PROCESSED_IDS)
    (hfresh : m.id ∉ pids)
    (helig : excludedMsg bot m = false)
    (hr : b1.runtime = some ()) (hro : b1.routeThrows = false)
    (hothers : ∀ p ∈ a1 ++ c1 ++ a2 ++ c2, p.1.id ≠ m.id)
    (hbound : c1.length + a2.length < MAX_PROCESSED_IDS) :
    dispatchCountId m.id
      (processSeq bot ((a1 ++ (m, b1) :: c1) ++ (a2 ++ (m, b2) :: c2)) pids).2 = 1 := by
  have hsplit : (a1 ++ (m, b1) :: c1) ++ (a2 ++ (m, b2) :: c2) =
      a1 ++ ((m, b1) :: ((c1 ++ a2) ++ ((m, b2) :: c2))) := by simp
  rw [hsplit, processSeq_append]
  -- state after a1
  have hp1ne : m.id ∉ (processSeq bot a1 pids).1 :=
    processSeq_not_mem bot m.id a1 pids hfresh
      (fun p hp => hothers p (by simp [hp]))
  have hp1len : (processSeq bot a1 pids).1.length ≤ MAX_PROCESSED_IDS :=
    processSeq_length bot a1 pids hlen
  simp only [processSeq]
  rw [pm_eligible bot m b1 _ helig (by simpa using hp1ne)]
  -- state after (m, b1)
  obtain ⟨pre, hpre⟩ := capProcessed_append_singleton _ m.id hp1len
  rw [processSeq_append, hpre]
  -- survival through c1 ++ a2
  have hcap_len : (pre ++ [m.id]).length ≤ MAX_PROCESSED_IDS := by
    rw [← hpre, capProcessed_length]
    have : MAX_PROCESSED_IDS = 500 := rfl
    omega
  obtain ⟨pre', post', heq, hple, hplen⟩ :=
    processSeq_survival bot m.id (c1 ++ a2) pre [] (by simpa using hcap_len)
      (by simpa using hbound)
  have heq' : (processSeq bot (c1 ++ a2) (pre ++ [m.id])).1 = pre' ++ m.id :: post' := by
    simpa using heq
  rw [heq']
  simp only [processSeq]
  rw [pm_seen bot m b2 _ (by simp)]
  -- counts
  have t1 : dispatchCountId m.id (processSeq bot a1 pids).2 = 0 :=
    processSeq_count_ne bot m.id a1 pids (fun p hp => hothers p (by simp [hp]))
  have t2 : dispatchCountId m.id
      (processSeq bot (c1 ++ a2) (pre ++ [m.id])).2 = 0 :=
    processSeq_count_ne bot m.id (c1 ++ a2) _
      (fun p hp => hothers p (by
        rcases List.mem_append.mp hp with h | h <;> simp [h]))
  have t3 : dispatchCountId m.id (processSeq bot c2 (pre' ++ m.id :: post')).2 = 0 :=
    processSeq_count_ne bot m.id c2 _ (fun p hp => hothers p (by simp [hp]))
  have t4 : dispatchCountId m.id (dispatchEvents m.id b1) = 1 :=
    dispatchEvents_count_self m.id b1 hr hro
  simp only [dispatchCountId] at t1 t2 t3 t4
  simp only [dispatchCountId, List.countP_append]
  cases hx : m.reactions.contains xKey <;> cases hw : b1.xRemoveThrows <;>
    simp [hx, hw, isDispatchOf, List.countP_cons, List.countP_append] <;> omega

theorem budgetWalk_zero (l : List Msg) : budgetWalk 0 l = [] := by
  cases l <;> simp [budgetWalk]

theorem budgetWalk_reverse_eq_specWalk (r : Nat) (l : List Msg) :
    (budgetWalk r l).reverse = specWalk r l := by
  induction l generalizing r with
  | nil => simp [budgetWalk, specWalk]
  | cons m rest ih =>
    by_cases h0 : r = 0
    · simp [budgetWalk, specWalk, h0]
    · by_cases hf : m.msg.length ≤ r
      · simp [budgetWalk, specWalk, h0, hf, ih]
      · simp [budgetWalk, specWalk, h0, hf, budgetWalk_zero]

theorem buildInboundHistory_eq_spec (msgs : List Msg) (cid : String) (budget : Nat) :
    buildInboundHistory msgs cid budget = specInboundHistory msgs cid budget := by
  unfold buildInboundHistory specInboundHistory
  exact budgetWalk_reverse_eq_specWalk budget _

set_option maxRecDepth 4000 in
/-- Claim C7: `buildInboundHistory` coincides with the spec's reference
algorithm (drop the current message, walk newest-first consuming the
budget, truncate with one ellipsis when a body no longer fits and stop,
return chronologically) on every input; and on the example of spec section
8 with budget 50 it returns exactly two chronological entries, the older
truncated to 45 characters plus one ellipsis character (46 in total) and
the newer body short verbatim. -/
theorem claim_C7_history_budgeter_matches_spec :
    (∀ msgs cid budget, buildInboundHistory msgs cid budget = specInboundHistory msgs cid budget) ∧
    buildInboundHistory [c7long, c7short, c7current] "m3" 50 =
      [⟨"alice", String.mk (List.replicate 45 'x') ++ ellipsis, 1⟩, ⟨"bob", "short", 2⟩] ∧
    (String.mk (List.replicate 45 'x') ++ ellipsis).length = 46 ∧
    (buildInboundHistory [c7long, c7short, c7current] "m3" 50).length = 2 :=
  ⟨buildInboundHistory_eq_spec, by decide, by decide, by decide⟩

/-- Claim C2: for an eligible message actually handed to the dispatch bridge,
`markComplete` is invoked iff the delivered flag was set, the error
callback never fired, and the dispatch call did not throw; in every other
case `markFailed` is invoked; a warning is logged exactly in the no-
delivery case and an error is logged iff the error callback fired or the
call threw. The final conjunct pins down the entire trace; the warning and
error conjuncts are stated on the dispatch section of the trace because
the stale-x removal can log a warning of its own. -/
theorem claim_C2_outcome_determines_mark (bot : String) (m : Msg) (b : Behavior) (pids : List String)
    (helig : excludedMsg bot m = false) (hfresh : pids.contains m.id = false)
    (hr : b.runtime = some ()) (hro : b.routeThrows = false) :
    Event.dispatch m.id ∈ (processMessage bot m b pids).trace ∧
    (Event.markComplete m.id ∈ (processMessage bot m b pids).trace ↔
      (b.delivered = true ∧ b.errorInvoked = false ∧ b.threw = false)) ∧
    (Event.markFailed m.id ∈ (processMessage bot m b pids).trace ↔
      ¬(b.delivered = true ∧ b.errorInvoked = false ∧ b.threw = false)) ∧
    (Event.logWarn ∈ dispatchEvents m.id b ↔
      (b.delivered = false ∧ b.errorInvoked = false ∧ b.threw = false)) ∧
    (Event.logError ∈ dispatchEvents m.id b ↔
      (b.errorInvoked = true ∨ b.threw = true)) ∧
    (processMessage bot m b pids).trace =
      (if m.reactions.contains xKey then
        Event.react m.id "x" false :: (if b.xRemoveThrows then [Event.logWarn] else [])
       else []) ++ Event.markProcessing m.id :: dispatchEvents m.id b := by
  rw [pm_eligible bot m b pids helig hfresh]
  simp only [dispatchEvents, hr, hro, getRuntime]
  cases hd : b.delivered <;> cases he : b.errorInvoked <;> cases ht : b.threw <;>
    cases hx : m.reactions.contains xKey <;> cases hw : b.xRemoveThrows <;>
      simp_all

/-- Claim C5: a polled message bearing the x reaction that passes the other
exclusion filters and is not yet in ProcessedSet is not suppressed by the
x mark: its trace starts with a single toggle-off of the x reaction, then
marks processing, then the dispatch section, and the dispatch bridge is
invoked; the count conjunct shows the toggle-off is emitted exactly once. -/
theorem claim_C5_x_reaction_cleared_and_reprocessed (bot : String) (m : Msg) (b : Behavior) (pids : List String)
    (hx : m.reactions.contains xKey = true)
    (helig : excludedMsg bot m = false) (hfresh : pids.contains m.id = false)
    (hr : b.runtime = some ()) (hro : b.routeThrows = false) :
    (processMessage bot m b pids).trace =
      Event.react m.id "x" false ::
        ((if b.xRemoveThrows then [Event.logWarn] else []) ++
          Event.markProcessing m.id :: dispatchEvents m.id b) ∧
    Event.dispatch m.id ∈ (processMessage bot m b pids).trace ∧
    (processMessage bot m b pids).trace.countP
      (fun e => e == Event.react m.id "x" false) = 1 ∧
    (processMessage bot m b pids).processed = true := by
  have hx' : xKey ∈ m.reactions := by simpa using hx
  rw [pm_eligible bot m b pids helig hfresh]
  refine ⟨by simp [hx'], ?_, ?_, rfl⟩
  · simp only [dispatchEvents, hr, hro, getRuntime]
    cases he : b.errorInvoked <;> cases ht : b.threw <;> cases hd : b.delivered <;>
      cases hw : b.xRemoveThrows <;> simp_all [hx]
  · have hde : (dispatchEvents m.id b).countP
        (fun e => e == Event.react m.id "x" false) = 0 := by
      simp only [dispatchEvents, hr, hro, getRuntime]
      cases he : b.errorInvoked <;> cases ht : b.threw <;> cases hd : b.delivered <;>
        simp_all
    cases hw : b.xRemoveThrows <;>
      simp_all [hx, List.countP_append, List.countP_cons]

/-- Claim C10: when the host-runtime singleton was never set, `getRuntime`
yields the runtime-not-initialized error; for an eligible message the per-
message handler catches it, `markFailed` is invoked and an error is
logged, the dispatch bridge is never invoked for any identifier, and
`processMessage` still returns normally (with result true), so the polling
loop never crashes from a missing runtime. -/
theorem claim_C10_missing_runtime_marks_failed (bot : String) (m : Msg) (b : Behavior) (pids : List String)
    (hrt : b.runtime = none)
    (helig : excludedMsg bot m = false) (hfresh : pids.contains m.id = false) :
    getRuntime b.runtime =
      Except.error "Runtime not initialized — plugin must be registered first" ∧
    (processMessage bot m b pids).processed = true ∧
    Event.markFailed m.id ∈ (processMessage bot m b pids).trace ∧
    Event.logError ∈ (processMessage bot m b pids).trace ∧
    (∀ x, Event.dispatch x ∉ (processMessage bot m b pids).trace) := by
  rw [pm_eligible bot m b pids helig hfresh]
  refine ⟨by rw [hrt]; rfl, rfl, ?_, ?_, ?_⟩ <;>
    simp only [dispatchEvents, hrt, getRuntime] <;>
    cases hx : m.reactions.contains xKey <;> cases hw : b.xRemoveThrows <;> simp_all

/-- Claim C8: for every message identifier and every outcome of the two
underlying reaction calls, `markComplete` issues exactly the two calls
remove-hourglass then add-checkmark and `markFailed` exactly remove-
hourglass then add-x, in order; both calls are always attempted (the
second even when the first fails), each failing call produces exactly one
warning log, and both operations always return ok - no exception ever
propagates to the caller. `markProcessing` is included for completeness. -/
theorem claim_C8_reaction_marker_two_calls (messageId : String) (r1 r2 : Except String Unit) :
    markComplete messageId r1 r2 =
      Except.ok ⟨[⟨messageId, "hourglass", false⟩, ⟨messageId, "white_check_mark", true⟩],
        warnOf r1 + warnOf r2⟩ ∧
    markFailed messageId r1 r2 =
      Except.ok ⟨[⟨messageId, "hourglass", false⟩, ⟨messageId, "x", true⟩],
        warnOf r1 + warnOf r2⟩ ∧
    markProcessing messageId r1 =
      Except.ok ⟨[⟨messageId, "hourglass", true⟩], warnOf r1⟩ := by
  cases r1 <;> cases r2 <;> exact ⟨rfl, rfl, rfl⟩

/-- Claim C9: once running, the loop executes every scheduled cycle no matter
which fetches fail - the trace has exactly one entry per cycle, so the
loop exits only when the cancellation schedule ends; a channel-history
fetch failure is caught, logged, and skips only that cycle leaving the
engine state untouched; a single thread's reply-fetch failure is caught
and logged, leaves that thread's offset and timestamp untouched, and the
remaining threads of the same cycle are still polled. -/
theorem claim_C9_poll_failures_nonfatal :
    (∀ bot ttl envs s, (runCycles bot ttl envs s).2.length = envs.length) ∧
    (∀ bot ttl env s, env.channel = Except.error () →
      runCycle bot ttl env s = (s, [Event.logError])) ∧
    (∀ bot ttl env rest s, env.channel = Except.error () →
      runCycles bot ttl (env :: rest) s =
        ((runCycles bot ttl rest s).1, [Event.logError] :: (runCycles bot ttl rest s).2)) ∧
    (∀ bot env pids tid st, env.threadFetch tid st.offset = Except.error () →
      pollThread bot env pids tid st = (st, pids, [Event.logError])) ∧
    (∀ bot env pids tid st rest, env.threadFetch tid st.offset = Except.error () →
      pollThreads bot env ((tid, st) :: rest) pids =
        ((tid, st) :: (pollThreads bot env rest pids).1,
          (pollThreads bot env rest pids).2.1,
          Event.logError :: (pollThreads bot env rest pids).2.2)) := by
  refine ⟨runCycles_cycle_count, ?_, ?_, ?_, ?_⟩
  · intro bot ttl env s h
    unfold runCycle
    rw [h]
  · intro bot ttl env rest s h
    simp only [runCycles]
    unfold runCycle
    rw [h]
  · intro bot env pids tid st h
    unfold pollThread
    rw [h]
  · intro bot env pids tid st rest h
    simp only [pollThreads]
    unfold pollThread
    rw [h]
    rfl

/-- Claim C3: the ProcessedSet never exceeds 500 entries - preserved by every
insertion and by entire runs; the cap step keeps exactly the most recent
500 insertions, dropping the oldest-inserted prefix (witnessed by the
take/drop decomposition), and a message whose id is already present leaves
the set completely untouched (no recency refresh); a poll batch of N
distinct, fresh, eligible messages yields exactly N dispatch invocations
while the set ends at min (old + N) 500 entries, so 600 new messages
dispatch 600 times and leave 500 entries. -/
theorem claim_C3_processed_set_invariants :
    (∀ bot m b pids, pids.length ≤ MAX_PROCESSED_IDS →
      (processMessage bot m b pids).pids.length ≤ MAX_PROCESSED_IDS) ∧
    (∀ bot ttl envs s, s.processedIds.length ≤ MAX_PROCESSED_IDS →
      (runCycles bot ttl envs s).1.processedIds.length ≤ MAX_PROCESSED_IDS) ∧
    (∀ l : List String, capProcessed l = l.drop (l.length - MAX_PROCESSED_IDS) ∧
      l.take (l.length - MAX_PROCESSED_IDS) ++ capProcessed l = l ∧
      (capProcessed l).length = min l.length MAX_PROCESSED_IDS) ∧
    (∀ bot m b pids, pids.contains m.id = true →
      processMessage bot m b pids = ⟨false, pids, []⟩) ∧
    (∀ bot msgs pids, (msgs.map (fun p : Msg × Behavior => p.1.id)).Nodup →
      (∀ p ∈ msgs, p.1.id ∉ pids) → (∀ p ∈ msgs, excludedMsg bot p.1 = false) →
      (∀ p ∈ msgs, p.2.runtime = some () ∧ p.2.routeThrows = false) →
      pids.length ≤ MAX_PROCESSED_IDS →
      dispatchCount (processSeq bot msgs pids).2 = msgs.length ∧
        (processSeq bot msgs pids).1.length =
          min (pids.length + msgs.length) MAX_PROCESSED_IDS) :=
  ⟨fun bot m b pids => pm_pids_length bot m b pids,
    fun bot ttl envs s => runCycles_length bot ttl envs s,
    fun l => ⟨capProcessed_eq_drop l, capProcessed_take_append l, capProcessed_length l⟩,
    fun bot m b pids h => pm_seen bot m b pids h,
    fun bot msgs pids h1 h2 h3 h4 h5 => processSeq_batch bot msgs pids h1 h2 h3 h4 h5⟩

/-- Claim C4 as stated is false on the code: a message that fails in cycle 1
of a run (its trace ends with markFailed) and is returned again by cycle 2
of the same run, now bearing the x reaction, is not reprocessed - cycle
2's trace is empty (no x removal, no dispatch) because the identifier is
still in ProcessedSet, and the dispatch bridge ran exactly once over the
whole run. -/
theorem claim_C4_counterexample :
    (runCycles "bot" 86400000 [c4env1, c4env2] ⟨[], []⟩).2 =
      [[Event.markProcessing "m1", Event.dispatch "m1", Event.markFailed "m1", Event.logError],
       []] ∧
    dispatchCountId "m1" ((runCycles "bot" 86400000 [c4env1, c4env2] ⟨[], []⟩).2.flatten) = 1 := by
  exact ⟨by decide, by decide⟩

/-- Claim C4 (amended): a message whose processing failed (ending in
markFailed) is reprocessed - stale x reaction removed first, dispatch
bridge invoked again - by a poll that returns it only when its identifier
is no longer in ProcessedSet, as after FIFO eviction or a process restart
(modelled by the empty set); within the same run, while the identifier is
still in ProcessedSet, the next poll that returns the message skips it
entirely. -/
theorem claim_C4_amended_reprocess_only_when_absent (bot : String) (m mX : Msg) (bF bR : Behavior) (pids : List String)
    (hlen : pids.length ≤ MAX_PROCESSED_IDS)
    (helig : excludedMsg bot m = false) (hfresh : pids.contains m.id = false)
    (hrF : bF.runtime = some ()) (hroF : bF.routeThrows = false) (hT : bF.threw = true)
    (hrR : bR.runtime = some ()) (hroR : bR.routeThrows = false)
    (hmx : mX = { m with reactions := xKey :: m.reactions }) :
    Event.markFailed m.id ∈ (processMessage bot m bF pids).trace ∧
    processMessage bot mX bR (processMessage bot m bF pids).pids =
      ⟨false, (processMessage bot m bF pids).pids, []⟩ ∧
    (processMessage bot mX bR []).trace =
      Event.react m.id "x" false ::
        ((if bR.xRemoveThrows then [Event.logWarn] else []) ++
          Event.markProcessing m.id :: dispatchEvents m.id bR) ∧
    Event.dispatch m.id ∈ (processMessage bot mX bR []).trace := by
  have heligX : excludedMsg bot mX = false := by
    subst hmx
    simp only [excludedMsg] at helig ⊢
    simp only [Bool.or_eq_false_iff] at helig ⊢
    refine ⟨⟨⟨helig.1.1.1, helig.1.1.2⟩, helig.1.2⟩, ?_⟩
    simp only [List.contains_cons]
    rw [helig.2]
    decide
  have hXid : mX.id = m.id := by subst hmx; rfl
  have hXx : mX.reactions.contains xKey = true := by
    subst hmx; simp [List.contains_cons]
  refine ⟨?_, ?_, ?_, ?_⟩
  · rw [pm_eligible bot m bF pids helig hfresh]
    simp only [dispatchEvents, hrF, hroF, hT, getRuntime]
    cases hx : m.reactions.contains xKey <;> cases hw : bF.xRemoveThrows <;>
      cases he : bF.errorInvoked <;> simp_all
  · have hmem : m.id ∈ (processMessage bot m bF pids).pids := by
      rw [pm_eligible bot m bF pids helig hfresh]
      obtain ⟨pre, hpre⟩ := capProcessed_append_singleton pids m.id hlen
      rw [hpre]
      simp
    have hc : (processMessage bot m bF pids).pids.contains mX.id = true := by
      rw [hXid]
      simpa using hmem
    exact pm_seen bot mX bR _ hc
  · rw [pm_eligible bot mX bR [] heligX (by simp)]
    have hXxm : xKey ∈ mX.reactions := by simpa using hXx
    simp [hXxm, hXid]
  · rw [pm_eligible bot mX bR [] heligX (by simp)]
    simp only [dispatchEvents, hrR, hroR, getRuntime, hXid]
    cases hx : mX.reactions.contains xKey <;> cases hw : bR.xRemoveThrows <;>
      cases he : bR.errorInvoked <;> cases ht : bR.threw <;> cases hd : bR.delivered <;>
        simp_all

/-- Claim C1: any polled message that is self-authored (sender equals the
configured bot account id), flagged as a system event, flagged bot-
authored, or already bearing the checkmark reaction is filtered out before
dispatch: across every poll of every cycle of any run, the dispatch bridge
is never invoked for that message's identifier. -/
theorem claim_C1_excluded_never_dispatched (bot mid : String) (ttl : Nat) (envs : List CycleEnv) (s : EngineState)
    (h : excludedEverywhere bot mid envs) :
    ∀ tr ∈ (runCycles bot ttl envs s).2, Event.dispatch mid ∉ tr :=
  runCycles_no_dispatch bot mid ttl envs s h

/-- Witness for claim C1 at a concrete input: one cycle polling one bot-
flagged message. -/
theorem claim_C1_witness :
    excludedEverywhere "bot" "m1" [w1env] ∧
    Event.dispatch "m1" ∉ (runCycles "bot" 0 [w1env] ⟨[], []⟩).2.headI := by
  have hexcl : excludedEverywhere "bot" "m1" [w1env] := by
    intro env henv
    simp only [List.mem_singleton] at henv
    subst henv
    refine ⟨?_, ?_⟩
    · intro l hl p hp hid
      simp only [w1env] at hl
      injection hl with hl
      subst hl
      simp only [List.mem_singleton] at hp
      subst hp
      decide
    · intro tid off l hl p hp hid
      simp only [w1env] at hl
      injection hl with hl
      subst hl
      simp at hp
  exact ⟨hexcl, claim_C1_excluded_never_dispatched "bot" "m1" 0 [w1env] ⟨[], []⟩ hexcl _ (by decide)⟩

/-- Witness for claim C2 at a concrete input: a fresh eligible message whose
dispatch delivers cleanly is marked complete. -/
theorem claim_C2_witness :
    excludedMsg "bot" w2msg = false ∧
    Event.markComplete "m1" ∈ (processMessage "bot" w2msg w2beh []).trace :=
  ⟨by decide,
    ((claim_C2_outcome_determines_mark "bot" w2msg w2beh [] (by decide) (by decide) (by decide) (by decide)).2.1).mpr
      (by decide)⟩

/-- Witness for claim C3 at a concrete input: a batch of two fresh distinct
eligible messages dispatches twice. -/
theorem claim_C3_witness :
    (["z"] : List String).length ≤ MAX_PROCESSED_IDS ∧
    dispatchCount (processSeq "bot" [(w3m1, w2beh), (w3m2, w2beh)] ["z"]).2 = 2 ∧
    (processSeq "bot" [(w3m1, w2beh), (w3m2, w2beh)] ["z"]).1.length =
      min (["z"].length + 2) MAX_PROCESSED_IDS := by
  have h := claim_C3_processed_set_invariants.2.2.2.2 "bot" [(w3m1, w2beh), (w3m2, w2beh)] ["z"]
    (by decide) (by decide) (by decide) (by decide) (by decide)
  exact ⟨by decide, h.1, h.2⟩

/-- Witness for claim C4 (amended) at a concrete input: a failed message is
marked failed, and its x-bearing snapshot dispatches again from a fresh
ProcessedSet. -/
theorem claim_C4_witness :
    excludedMsg "bot" w4m = false ∧
    Event.markFailed "m1" ∈ (processMessage "bot" w4m w4bF []).trace ∧
    Event.dispatch "m1" ∈ (processMessage "bot" w4mX w2beh []).trace := by
  have h := claim_C4_amended_reprocess_only_when_absent "bot" w4m w4mX w4bF w2beh [] (by decide) (by decide) (by decide)
    (by decide) (by decide) (by decide) (by decide) (by decide) (by decide)
  exact ⟨by decide, h.1, h.2.2.2⟩

/-- Witness for claim C5 at a concrete input: an x-bearing eligible message's
trace starts with the toggle-off. -/
theorem claim_C5_witness :
    w4mX.reactions.contains xKey = true ∧
    (processMessage "bot" w4mX w2beh []).trace =
      Event.react "m1" "x" false ::
        (([] : List Event) ++ Event.markProcessing "m1" :: dispatchEvents "m1" w2beh) := by
  have h := claim_C5_x_reaction_cleared_and_reprocessed "bot" w4mX w2beh [] (by decide) (by decide) (by decide)
    (by decide) (by decide)
  refine ⟨by decide, ?_⟩
  have := h.1
  simpa using this

/-- Witness for claim C6 at a concrete input: the same message in two
consecutive one-message polls dispatches once. -/
theorem claim_C6_witness :
    dispatchCountId "m1"
      (processSeq "bot" (([] ++ (w4m, w2beh) :: []) ++ ([] ++ (w4m, w2beh) :: [])) []).2 = 1 :=
  claim_C6_dispatch_idempotent_across_polls "bot" w4m w2beh w2beh [] [] [] [] [] (by decide) (by decide) (by decide)
    (by decide) (by decide) (by decide) (by decide)

/-- Witness for claim C9 at concrete inputs: a failing channel fetch yields
only a poll-error log, and a failing thread fetch leaves state untouched. -/
theorem claim_C9_witness :
    runCycle "bot" 0 w9env ⟨[], []⟩ = (⟨[], []⟩, [Event.logError]) ∧
    pollThread "bot" w9env ["z"] "t1" ⟨0, 0⟩ = (⟨0, 0⟩, ["z"], [Event.logError]) :=
  ⟨claim_C9_poll_failures_nonfatal.2.1 "bot" 0 w9env ⟨[], []⟩ rfl,
    claim_C9_poll_failures_nonfatal.2.2.2.1 "bot" w9env ["z"] "t1" ⟨0, 0⟩ rfl⟩

/-- Witness for claim C10 at a concrete input: with the runtime slot empty the
message is marked failed and nothing is dispatched. -/
theorem claim_C10_witness :
    w10beh.runtime = none ∧
    Event.markFailed "m1" ∈ (processMessage "bot" w4m w10beh []).trace ∧
    Event.dispatch "m1" ∉ (processMessage "bot" w4m w10beh []).trace := by
  have h := claim_C10_missing_runtime_marks_failed "bot" w4m w10beh [] (by decide) (by decide) (by decide)
  exact ⟨by decide, h.2.2.1, h.2.2.2.2 "m1"⟩

end RocketChat
